import Mathlib

/-!
Shallow embedding of freepy's actor-processor core
(src/freepy/lib/actors/actor_processor.py).

The processor binds an actor to a mailbox and runs bounded message-processing
slices.  User code (the actor's receive, the scheduler's interrupt decision,
wall-clock durations) is modelled by an oracle giving, for each dispatch in a
slice, the measured duration, whether receive raised an exception (which the
source catches and logs), and whether the scheduler's interrupt() raised an
InterruptException (the yield signal).  Side effects visible outside the
processor (calls into the actor's receive and hooks, logging, scheduler
registration) are recorded as an event trace.
-/

set_option autoImplicit false

namespace Freepy

/-- The lifecycle-state constants ACTOR_PROCESSOR_IDLE, READY, RUNNING,
COMPLETED from freepy.lib.actors.constants. -/
inductive ProcState
  | idle
  | ready
  | running
  | completed
  deriving DecidableEq, Repr

/-- A mailbox message: either the distinguished PoisonPill termination signal
or an ordinary user message carrying an opaque payload. -/
inductive Message (α : Type)
  | poisonPill
  | user (payload : α)
  deriving DecidableEq, Repr

/-- The dynamically probed shape of the actor collaborator: whether
hasattr(actor, on_start) / hasattr(actor, on_stop) hold and whether the
found attributes are callable.  The receive behaviour itself is supplied
per-dispatch by the oracle. -/
structure Actor where
  onStartPresent : Bool
  onStartCallable : Bool
  onStopPresent : Bool
  onStopCallable : Bool
  deriving DecidableEq, Repr

/-- Externally visible effects of running the processor. -/
inductive Event (α : Type)
  | received (message : α)
  | loggedException
  | onStart
  | onStop
  | scheduled
  | notified
  deriving DecidableEq, Repr

/-- Environment data for one message dispatch inside a slice: the wall-clock
duration time_delta_ms(start_time, end_time), whether actor.receive raised,
and whether scheduler.interrupt() raised InterruptException. -/
structure DispatchOutcome where
  duration : Nat
  receiveRaises : Bool
  interruptYields : Bool
  deriving DecidableEq, Repr

/-- Per-slice environment: the dispatch outcomes indexed by the number of
messages already dispatched in this slice. -/
abbrev Oracle := Nat → DispatchOutcome

/-- The ActorProcessor object state: its actor, its mailbox, the _state field
and the five run-time statistics counters from __init__. -/
structure ActorProcessor (α : Type) where
  actor : Actor
  mailbox : List (Message α)
  state : Option ProcState
  slice_msg_count : Nat
  slice_penalty : Nat
  slice_run_time : Nat
  total_msg_count : Nat
  total_run_time : Nat
  deriving DecidableEq, Repr

/-- __init__: stores the actor and mailbox, sets _state = None and all five
statistics counters to 0. -/
def mkActorProcessor {α : Type} (actor : Actor) (mailbox : List (Message α)) :
    ActorProcessor α :=
  ⟨actor, mailbox, none, 0, 0, 0, 0, 0⟩

/-- The events fired by _stop's hook probe: on_stop is called exactly when the
actor has an on_stop attribute and it is callable; absence is not an error. -/
def stopEvents {α : Type} (actor : Actor) : List (Event α) :=
  if actor.onStopPresent then
    if actor.onStopCallable then [Event.onStop] else []
  else []

/-- _stop: sets _state = ACTOR_PROCESSOR_COMPLETED, then fires the actor's
on_stop hook when present and callable. -/
def ActorProcessor.stop {α : Type} (p : ActorProcessor α) :
    ActorProcessor α × List (Event α) :=
  ({ p with state := some ProcState.completed }, stopEvents p.actor)

/-- Result of the while-loop inside execute(): the _state it left, the
remaining mailbox, the slice counters, and the events emitted. -/
structure LoopResult (α : Type) where
  state : Option ProcState
  mailbox : List (Message α)
  smc : Nat
  srt : Nat
  events : List (Event α)
  deriving DecidableEq, Repr

/-- The while-loop of execute(), recursing on the mailbox: an empty mailbox
sets _state = IDLE and breaks; a popped PoisonPill runs _stop() and breaks;
otherwise the message goes to actor.receive (exceptions caught and logged),
the slice counters are bumped, and scheduler.interrupt() either raises
InterruptException (set READY if the mailbox is non-empty, else IDLE, and
break) or returns normally (continue with the next message). -/
def executeLoop {α : Type} (actor : Actor) (o : Oracle) :
    List (Message α) → Nat → Nat → Nat → LoopResult α
  | [], _, smc, srt => ⟨some ProcState.idle, [], smc, srt, []⟩
  | Message.poisonPill :: rest, _, smc, srt =>
      ⟨some ProcState.completed, rest, smc, srt, stopEvents actor⟩
  | Message.user m :: rest, i, smc, srt =>
      let d := o i
      let evs := if d.receiveRaises
        then [Event.received m, Event.loggedException]
        else [Event.received m]
      if d.interruptYields then
        ⟨if rest.length > 0 then some ProcState.ready else some ProcState.idle,
          rest, smc + 1, srt + d.duration, evs⟩
      else
        let r := executeLoop actor o rest (i + 1) (smc + 1) (srt + d.duration)
        ⟨r.state, r.mailbox, r.smc, r.srt, evs ++ r.events⟩

/-- execute(): resets _slice_msg_count and _slice_run_time to 0, runs the
message loop, then (on every exit path of the loop) adds the slice counters
into _total_msg_count and _total_run_time. -/
def ActorProcessor.execute {α : Type} (p : ActorProcessor α) (o : Oracle) :
    ActorProcessor α × List (Event α) :=
  let r := executeLoop p.actor o p.mailbox 0 0 0
  ({ p with
      state := r.state,
      mailbox := r.mailbox,
      slice_msg_count := r.smc,
      slice_run_time := r.srt,
      total_msg_count := p.total_msg_count + r.smc,
      total_run_time := p.total_run_time + r.srt }, r.events)

/-- tell(message): appends the message at the tail of the mailbox; nothing
else changes. -/
def ActorProcessor.tell {α : Type} (p : ActorProcessor α) (message : Message α) :
    ActorProcessor α :=
  { p with mailbox := p.mailbox ++ [message] }

/-- The events fired by start's hook probe: on_start is called exactly when
the actor has an on_start attribute and it is callable. -/
def startEvents {α : Type} (actor : Actor) : List (Event α) :=
  if actor.onStartPresent then
    if actor.onStartCallable then [Event.onStart] else []
  else []

/-- start(): fires the actor's optional on_start hook, sets _state = IDLE,
then calls scheduler.schedule(self) and scheduler.notify(). -/
def ActorProcessor.start {α : Type} (p : ActorProcessor α) :
    ActorProcessor α × List (Event α) :=
  ({ p with state := some ProcState.idle },
    startEvents p.actor ++ [Event.scheduled, Event.notified])

/-- The instance fields backing the numeric statistics attributes; writing
one of these names goes through the default object attribute-setting path. -/
inductive FieldName
  | f_slice_penalty
  | f_slice_msg_count
  | f_slice_run_time
  | f_total_msg_count
  | f_total_run_time
  deriving DecidableEq, Repr

/-- An attribute name handed to __setattr__: either the public name
slice_penalty (the intercepted case) or one of the backing field names. -/
inductive AttrName
  | slice_penalty
  | field (f : FieldName)
  deriving DecidableEq, Repr

/-- The default attribute-setting path, super().__setattr__(name, value):
writes the named instance field. -/
def setattrDefault {α : Type} (p : ActorProcessor α) :
    FieldName → Nat → ActorProcessor α
  | FieldName.f_slice_penalty, v => { p with slice_penalty := v }
  | FieldName.f_slice_msg_count, v => { p with slice_msg_count := v }
  | FieldName.f_slice_run_time, v => { p with slice_run_time := v }
  | FieldName.f_total_msg_count, v => { p with total_msg_count := v }
  | FieldName.f_total_run_time, v => { p with total_run_time := v }

/-- __setattr__(name, value): the name slice_penalty is intercepted and the
assignment is redirected to the _slice_penalty backing field (that inner
assignment re-enters __setattr__ with the backing-field name, which takes the
default path); any other name goes down the default path directly. -/
def ActorProcessor.setattr {α : Type} (p : ActorProcessor α) :
    AttrName → Nat → ActorProcessor α
  | AttrName.slice_penalty, v => setattrDefault p FieldName.f_slice_penalty v
  | AttrName.field f, v => setattrDefault p f v

/-- The payloads delivered to actor.receive, read off an event trace. -/
def deliveredOf {α : Type} : List (Event α) → List α
  | [] => []
  | Event.received m :: rest => m :: deliveredOf rest
  | _ :: rest => deliveredOf rest

/-- An external operation on a processor: a tell or a scheduled execute slice
with its environment oracle. -/
inductive Op (α : Type)
  | tell (message : Message α)
  | execute (o : Oracle)

/-- Whether an operation is a tell. -/
def Op.isTell {α : Type} : Op α → Bool
  | Op.tell _ => true
  | Op.execute _ => false

/-- Run one external operation. -/
def runOp {α : Type} (p : ActorProcessor α) : Op α → ActorProcessor α × List (Event α)
  | Op.tell m => (p.tell m, [])
  | Op.execute o => p.execute o

/-- Run a sequence of external operations, concatenating the event traces. -/
def runOps {α : Type} (p : ActorProcessor α) :
    List (Op α) → ActorProcessor α × List (Event α)
  | [] => (p, [])
  | op :: ops =>
      let r := runOp p op
      let s := runOps r.1 ops
      (s.1, r.2 ++ s.2)

/-- Sum of the oracle durations at the n dispatch indices starting at i. -/
def durSum (o : Oracle) (i : Nat) : Nat → Nat
  | 0 => 0
  | n + 1 => (o i).duration + durSum o (i + 1) n

/-- tell each payload of the list in order, as a user message. -/
def tellList {α : Type} (p : ActorProcessor α) (ms : List α) : ActorProcessor α :=
  ms.foldl (fun q x => q.tell (Message.user x)) p

/-- Run a sequence of execute slices, one oracle per slice. -/
def runSlices {α : Type} (p : ActorProcessor α) : List Oracle → ActorProcessor α
  | [] => p
  | o :: os => runSlices (p.execute o).1 os

/-- The slice_msg_count value after each slice of a run. -/
def sliceMsgCounts {α : Type} (p : ActorProcessor α) : List Oracle → List Nat
  | [] => []
  | o :: os =>
      let q := (p.execute o).1
      q.slice_msg_count :: sliceMsgCounts q os

/-- The slice_run_time value after each slice of a run. -/
def sliceRunTimes {α : Type} (p : ActorProcessor α) : List Oracle → List Nat
  | [] => []
  | o :: os =>
      let q := (p.execute o).1
      q.slice_run_time :: sliceRunTimes q os

/-- Build a per-slice oracle from a duration sequence, a receive-raises
sequence and an interrupt-yields sequence. -/
def mkOracle (d : Nat → Nat) (r : Nat → Bool) (y : Nat → Bool) : Oracle :=
  fun i => ⟨d i, r i, y i⟩

/-- An actor exposing callable on_start and on_stop hooks. -/
def actorA : Actor := ⟨true, true, true, true⟩

/-- An environment in which receive never raises and interrupt() never
signals a yield; every dispatch is measured at 1 ms. -/
def oNever : Oracle := fun _ => ⟨1, false, false⟩

/-- An environment in which interrupt() signals a yield after every
dispatch. -/
def oYield : Oracle := fun _ => ⟨1, false, true⟩

/-- The observable components of a loop result: everything except the exact
shape of the event trace, of which only the delivered payloads are kept. -/
def observedLoop {α : Type} (r : LoopResult α) :
    Option ProcState × List (Message α) × Nat × Nat × List α :=
  (r.state, r.mailbox, r.smc, r.srt, deliveredOf r.events)

theorem deliveredOf_append {α : Type} (xs ys : List (Event α)) :
    deliveredOf (xs ++ ys) = deliveredOf xs ++ deliveredOf ys := by
  induction xs with
  | nil => rfl
  | cons e rest ih => cases e <;> simp [deliveredOf, ih]

theorem deliveredOf_stopEvents {α : Type} (actor : Actor) :
    deliveredOf (stopEvents actor : List (Event α)) = [] := by
  cases hp : actor.onStopPresent <;> cases hc : actor.onStopCallable <;>
    simp [stopEvents, hp, hc, deliveredOf]

theorem executeLoop_counts {α : Type} (actor : Actor) (o : Oracle) :
    ∀ (mb : List (Message α)) (i smc srt : Nat),
      (executeLoop actor o mb i smc srt).smc
        = smc + (deliveredOf (executeLoop actor o mb i smc srt).events).length ∧
      (executeLoop actor o mb i smc srt).srt
        = srt + durSum o i (deliveredOf (executeLoop actor o mb i smc srt).events).length := by
  intro mb
  induction mb with
  | nil => intro i smc srt; simp [executeLoop, deliveredOf, durSum]
  | cons msg rest ih =>
    intro i smc srt
    cases msg with
    | poisonPill => simp [executeLoop, deliveredOf_stopEvents, durSum]
    | user m =>
      by_cases hy : (o i).interruptYields
      · by_cases hr : (o i).receiveRaises <;>
          simp [executeLoop, hy, hr, deliveredOf, durSum]
      · have h := ih (i + 1) (smc + 1) (srt + (o i).duration)
        by_cases hr : (o i).receiveRaises <;>
          simp [executeLoop, hy, hr, deliveredOf, deliveredOf_append, durSum,
            h.1, h.2] <;> omega

theorem executeLoop_state_cases {α : Type} (actor : Actor) (o : Oracle) :
    ∀ (mb : List (Message α)) (i smc srt : Nat),
      ((executeLoop actor o mb i smc srt).state = some ProcState.idle ∧
        (executeLoop actor o mb i smc srt).mailbox = []) ∨
      ((executeLoop actor o mb i smc srt).state = some ProcState.ready ∧
        (executeLoop actor o mb i smc srt).mailbox ≠ []) ∨
      (executeLoop actor o mb i smc srt).state = some ProcState.completed := by
  intro mb
  induction mb with
  | nil => intro i smc srt; exact Or.inl ⟨rfl, rfl⟩
  | cons msg rest ih =>
    intro i smc srt
    cases msg with
    | poisonPill => exact Or.inr (Or.inr rfl)
    | user m =>
      by_cases hy : (o i).interruptYields
      · cases rest with
        | nil => exact Or.inl (by simp [executeLoop, hy])
        | cons m' rest' =>
          exact Or.inr (Or.inl (by simp [executeLoop, hy]))
      · have h := ih (i + 1) (smc + 1) (srt + (o i).duration)
        simpa [executeLoop, hy] using h

theorem executeLoop_step_no_yield {α : Type} (actor : Actor) (o : Oracle)
    (m : α) (rest : List (Message α)) (i smc srt : Nat)
    (hy : (o i).interruptYields = false) :
    deliveredOf (executeLoop actor o (Message.user m :: rest) i smc srt).events
      = m :: deliveredOf (executeLoop actor o rest (i + 1) (smc + 1)
          (srt + (o i).duration)).events := by
  by_cases hr : (o i).receiveRaises <;>
    simp [executeLoop, hy, hr, deliveredOf, deliveredOf_append]

theorem executeLoop_user_delivered {α : Type} (actor : Actor) (o : Oracle)
    (m : α) (rest : List (Message α)) (i smc srt : Nat) :
    ∃ t, deliveredOf (executeLoop actor o (Message.user m :: rest) i smc srt).events
      = m :: t := by
  by_cases hy : (o i).interruptYields <;> by_cases hr : (o i).receiveRaises <;>
    simp [executeLoop, hy, hr, deliveredOf, deliveredOf_append]

theorem executeLoop_no_yield_delivers {α : Type} (actor : Actor) (o : Oracle)
    (hy : ∀ i, (o i).interruptYields = false) :
    ∀ (ms : List α) (i smc srt : Nat),
      deliveredOf (executeLoop actor o (ms.map Message.user) i smc srt).events = ms := by
  intro ms
  induction ms with
  | nil => intro i smc srt; rfl
  | cons x xs ih =>
    intro i smc srt
    by_cases hr : (o i).receiveRaises <;>
      simp [executeLoop, hy i, hr, deliveredOf, deliveredOf_append, ih]

theorem tellList_mailbox {α : Type} :
    ∀ (ms : List α) (p : ActorProcessor α),
      (tellList p ms).mailbox = p.mailbox ++ ms.map Message.user := by
  intro ms
  induction ms with
  | nil => intro p; simp [tellList]
  | cons x xs ih =>
    intro p
    have h : tellList p (x :: xs) = tellList (p.tell (Message.user x)) xs := rfl
    rw [h, ih]
    simp [ActorProcessor.tell]

theorem runOps_tell_only {α : Type} :
    ∀ (ops : List (Op α)) (p : ActorProcessor α),
      (∀ op ∈ ops, op.isTell = true) →
      (runOps p ops).1.state = p.state ∧ (runOps p ops).2 = [] := by
  intro ops
  induction ops with
  | nil => intro p _; exact ⟨rfl, rfl⟩
  | cons op ops ih =>
    intro p h
    cases op with
    | tell m =>
      have h' := ih (p.tell m) (fun x hx => h x (List.mem_cons_of_mem _ hx))
      exact ⟨h'.1, by simpa [runOps, runOp] using h'.2⟩
    | execute o =>
      have := h (Op.execute o) (List.mem_cons_self _ _)
      simp [Op.isTell] at this

theorem executeLoop_raises_ignored {α : Type} (actor : Actor)
    (d : Nat → Nat) (r₁ r₂ y : Nat → Bool) :
    ∀ (mb : List (Message α)) (i smc srt : Nat),
      observedLoop (executeLoop actor (mkOracle d r₁ y) mb i smc srt)
        = observedLoop (executeLoop actor (mkOracle d r₂ y) mb i smc srt) := by
  intro mb
  induction mb with
  | nil => intro i smc srt; rfl
  | cons msg rest ih =>
    intro i smc srt
    cases msg with
    | poisonPill => rfl
    | user m =>
      by_cases hy : y i
      · by_cases hr1 : r₁ i <;> by_cases hr2 : r₂ i <;>
          simp [executeLoop, mkOracle, observedLoop, hy, hr1, hr2, deliveredOf]
      · have h := ih (i + 1) (smc + 1) (srt + d i)
        simp [observedLoop, Prod.ext_iff] at h
        by_cases hr1 : r₁ i <;> by_cases hr2 : r₂ i <;>
          simp [executeLoop, mkOracle, observedLoop, hy, hr1, hr2, deliveredOf,
            deliveredOf_append, h.1, h.2.1, h.2.2.1, h.2.2.2.1, h.2.2.2.2]

theorem execute_total_msg {α : Type} (p : ActorProcessor α) (o : Oracle) :
    (p.execute o).1.total_msg_count
      = p.total_msg_count + (p.execute o).1.slice_msg_count := rfl

theorem execute_total_run {α : Type} (p : ActorProcessor α) (o : Oracle) :
    (p.execute o).1.total_run_time
      = p.total_run_time + (p.execute o).1.slice_run_time := rfl

theorem runSlices_totals {α : Type} :
    ∀ (os : List Oracle) (p : ActorProcessor α),
      (runSlices p os).total_msg_count
        = p.total_msg_count + (sliceMsgCounts p os).sum ∧
      (runSlices p os).total_run_time
        = p.total_run_time + (sliceRunTimes p os).sum := by
  intro os
  induction os with
  | nil => intro p; simp [runSlices, sliceMsgCounts, sliceRunTimes]
  | cons o os ih =>
    intro p
    have h := ih (p.execute o).1
    constructor
    · rw [show runSlices p (o :: os) = runSlices (p.execute o).1 os from rfl, h.1,
        execute_total_msg p o]
      simp [sliceMsgCounts]
      omega
    · rw [show runSlices p (o :: os) = runSlices (p.execute o).1 os from rfl, h.2,
        execute_total_run p o]
      simp [sliceRunTimes]
      omega

/-- C1: when the message popped from the head of the mailbox is the
PoisonPill termination signal, execute() invokes _stop(): state becomes
Completed, the actor's on_stop hook fires exactly when it is present and
callable (absence is not an error), the slice ends immediately with no slice
counters accumulated, and the termination signal is never passed to the
actor's receive. -/
theorem c1_poison_pill_stops {α : Type} (p : ActorProcessor α) (o : Oracle)
    (rest : List (Message α)) (h : p.mailbox = Message.poisonPill :: rest) :
    (p.execute o).1.state = some ProcState.completed ∧
    (p.execute o).1.mailbox = rest ∧
    (p.execute o).1.slice_msg_count = 0 ∧
    (p.execute o).1.slice_run_time = 0 ∧
    (p.execute o).2 = stopEvents p.actor ∧
    deliveredOf (p.execute o).2 = [] ∧
    (p.actor.onStopPresent = true → p.actor.onStopCallable = true →
      (p.execute o).2 = [Event.onStop]) ∧
    (p.actor.onStopPresent = false ∨ p.actor.onStopCallable = false →
      (p.execute o).2 = []) := by
  have he : p.execute o
      = ({ p with
            state := some ProcState.completed, mailbox := rest,
            slice_msg_count := 0, slice_run_time := 0,
            total_msg_count := p.total_msg_count,
            total_run_time := p.total_run_time },
          stopEvents p.actor) := by
    simp [ActorProcessor.execute, h, executeLoop]
  rw [he]
  refine ⟨rfl, rfl, rfl, rfl, rfl, deliveredOf_stopEvents p.actor, ?_, ?_⟩
  · intro h1 h2
    simp [stopEvents, h1, h2]
  · intro h1
    rcases h1 with h1 | h1 <;> simp [stopEvents, h1]

/-- C1 witness: a processor whose mailbox starts with a PoisonPill, run in a
non-yielding environment, ends Completed, delivers nothing to receive, and
fires on_stop. -/
theorem c1_poison_pill_stops_witness :
    ((mkActorProcessor actorA
        [Message.poisonPill, Message.user (1 : Nat)]).execute oNever).1.state
      = some ProcState.completed ∧
    deliveredOf ((mkActorProcessor actorA
        [Message.poisonPill, Message.user (1 : Nat)]).execute oNever).2 = [] ∧
    ((mkActorProcessor actorA
        [Message.poisonPill, Message.user (1 : Nat)]).execute oNever).2
      = [Event.onStop] := by
  have h := c1_poison_pill_stops
      (mkActorProcessor actorA [Message.poisonPill, Message.user (1 : Nat)])
      oNever [Message.user 1] rfl
  exact ⟨h.1, h.2.2.2.2.2.1, h.2.2.2.2.2.2.1 rfl rfl⟩

/-- C3 counterexample: a slice that exits on the termination-signal path
still adds the slice counters into the cumulative totals.  With mailbox
[user 7, PoisonPill] and a non-yielding environment, the slice exits by
popping the pill, yet total_msg_count ends at 1 and total_run_time at 1
(the claim, as stated, requires both to remain 0 on this path). -/
theorem c3_counterexample :
    ((mkActorProcessor actorA
        [Message.user (7 : Nat), Message.poisonPill]).execute oNever).1.state
      = some ProcState.completed ∧
    ((mkActorProcessor actorA
        [Message.user (7 : Nat), Message.poisonPill]).execute oNever).1.total_msg_count
      = 1 ∧
    ((mkActorProcessor actorA
        [Message.user (7 : Nat), Message.poisonPill]).execute oNever).1.total_run_time
      = 1 := by decide

/-- C3 amended: on every exit path of an execute() slice — including the
termination-signal (PoisonPill) path, since the totals update sits after the
loop — the slice's message count and run time are added into the cumulative
totals. -/
theorem c3_totals_updated_every_path {α : Type} (p : ActorProcessor α) (o : Oracle) :
    (p.execute o).1.total_msg_count
      = p.total_msg_count + (p.execute o).1.slice_msg_count ∧
    (p.execute o).1.total_run_time
      = p.total_run_time + (p.execute o).1.slice_run_time :=
  ⟨rfl, rfl⟩

/-- C4 counterexample: execute() called on a Completed processor is neither
reported as an error nor a no-op.  A processor that consumed a PoisonPill
(state Completed), then receives tell(user 5), processes message 5 on the
next execute() call and silently leaves state Completed for Idle. -/
theorem c4_counterexample :
    (runOps (mkActorProcessor actorA [Message.poisonPill])
        [Op.execute oNever, Op.tell (Message.user (5 : Nat)),
          Op.execute oNever]).2
      = [Event.onStop, Event.received 5] ∧
    (runOps (mkActorProcessor actorA [Message.poisonPill])
        [Op.execute oNever, Op.tell (Message.user (5 : Nat)),
          Op.execute oNever]).1.state
      = some ProcState.idle := by decide

/-- C4 amended: execute() performs no precondition check on the state field:
its result is completely independent of the prior state value, so a call on a
Completed processor is silently accepted and the slice runs exactly as it
would from any other state, processing pending messages. -/
theorem c4_execute_ignores_state {α : Type} (p : ActorProcessor α)
    (s₁ s₂ : Option ProcState) (o : Oracle) :
    ActorProcessor.execute { p with state := s₁ } o
      = ActorProcessor.execute { p with state := s₂ } o := rfl

/-- C8 counterexample: immediately after construction (before start()), the
state attribute is None — not one of the four lifecycle states Idle, Ready,
Running, Completed. -/
theorem c8_counterexample :
    (mkActorProcessor actorA ([] : List (Message Nat))).state
        ≠ some ProcState.idle ∧
    (mkActorProcessor actorA ([] : List (Message Nat))).state
        ≠ some ProcState.ready ∧
    (mkActorProcessor actorA ([] : List (Message Nat))).state
        ≠ some ProcState.running ∧
    (mkActorProcessor actorA ([] : List (Message Nat))).state
        ≠ some ProcState.completed ∧
    (mkActorProcessor actorA ([] : List (Message Nat))).state = none := by
  decide

/-- C8 amended: immediately after construction the state attribute is None
(__init__ sets _state = None); after start() it is Idle, and at the end of
every execute() slice it is one of Idle, Ready, Completed — so it is one of
the four lifecycle states at every point after start() has run, but not
before. -/
theorem c8_state_values {α : Type} (actor : Actor) (mb : List (Message α))
    (p : ActorProcessor α) (o : Oracle) :
    (mkActorProcessor actor mb).state = none ∧
    (p.start).1.state = some ProcState.idle ∧
    ((p.execute o).1.state = some ProcState.idle ∨
      (p.execute o).1.state = some ProcState.ready ∨
      (p.execute o).1.state = some ProcState.completed) := by
  refine ⟨rfl, rfl, ?_⟩
  have h := executeLoop_state_cases p.actor o p.mailbox 0 0 0
  rcases h with ⟨h1, _⟩ | ⟨h1, _⟩ | h1
  · exact Or.inl h1
  · exact Or.inr (Or.inl h1)
  · exact Or.inr (Or.inr h1)

/-- C10: assigning to the attribute name slice_penalty is intercepted by
__setattr__ and writes the _slice_penalty backing field — the slice_penalty
property then returns the assigned value and every other field is unchanged —
while assignment to any other attribute name follows the default
attribute-setting path. -/
theorem c10_slice_penalty_intercepted {α : Type} (p : ActorProcessor α)
    (v : Nat) (f : FieldName) :
    (p.setattr AttrName.slice_penalty v).slice_penalty = v ∧
    (p.setattr AttrName.slice_penalty v).actor = p.actor ∧
    (p.setattr AttrName.slice_penalty v).mailbox = p.mailbox ∧
    (p.setattr AttrName.slice_penalty v).state = p.state ∧
    (p.setattr AttrName.slice_penalty v).slice_msg_count = p.slice_msg_count ∧
    (p.setattr AttrName.slice_penalty v).slice_run_time = p.slice_run_time ∧
    (p.setattr AttrName.slice_penalty v).total_msg_count = p.total_msg_count ∧
    (p.setattr AttrName.slice_penalty v).total_run_time = p.total_run_time ∧
    p.setattr (AttrName.field f) v = setattrDefault p f v :=
  ⟨rfl, rfl, rfl, rfl, rfl, rfl, rfl, rfl, rfl⟩

/-- Two slices whose loops agree on the observable components produce equal
processors and equal delivered-payload sequences. -/
theorem execute_observed_eq {α : Type} (p : ActorProcessor α) (o₁ o₂ : Oracle)
    (h : observedLoop (executeLoop p.actor o₁ p.mailbox 0 0 0)
      = observedLoop (executeLoop p.actor o₂ p.mailbox 0 0 0)) :
    (p.execute o₁).1 = (p.execute o₂).1 ∧
    deliveredOf (p.execute o₁).2 = deliveredOf (p.execute o₂).2 := by
  simp only [observedLoop, Prod.mk.injEq] at h
  obtain ⟨h1, h2, h3, h4, h5⟩ := h
  constructor
  · simp only [ActorProcessor.execute]
    rw [h1, h2, h3, h4]
  · simpa [ActorProcessor.execute] using h5

/-- A Completed processor obtained by actually consuming a PoisonPill. -/
def completedP : ActorProcessor Nat :=
  ((mkActorProcessor actorA [Message.poisonPill]).execute oNever).1

/-- C2 counterexample: after the termination signal has been popped (first
execute() slice on mailbox [PoisonPill, user 1] ends with on_stop fired and
state Completed), a second execute() call still delivers message 1 to
receive and leaves the final state Idle, not Completed. -/
theorem c2_counterexample :
    (runOps (mkActorProcessor actorA [Message.poisonPill, Message.user (1 : Nat)])
        [Op.execute oNever, Op.execute oNever]).2
      = [Event.onStop, Event.received 1] ∧
    (runOps (mkActorProcessor actorA [Message.poisonPill, Message.user (1 : Nat)])
        [Op.execute oNever, Op.execute oNever]).1.state
      = some ProcState.idle := by decide

/-- C2 amended: once the termination signal is popped, the current slice ends
immediately with state Completed and delivers nothing further to receive, and
tell() calls never change the state or deliver anything — so the state stays
Completed and no message is delivered as long as execute() is not invoked
again (a further execute() call, however, resumes processing, as execute()
performs no state check). -/
theorem c2_termination_within_slice {α : Type} (actor : Actor) (o : Oracle)
    (rest : List (Message α)) (i smc srt : Nat)
    (p : ActorProcessor α) (ops : List (Op α))
    (hops : ∀ op ∈ ops, op.isTell = true) :
    (executeLoop actor o (Message.poisonPill :: rest) i smc srt).state
      = some ProcState.completed ∧
    deliveredOf (executeLoop actor o (Message.poisonPill :: rest) i smc srt).events
      = [] ∧
    (runOps p ops).1.state = p.state ∧
    (runOps p ops).2 = [] := by
  have h := runOps_tell_only ops p hops
  exact ⟨rfl, by simp [executeLoop, deliveredOf_stopEvents], h.1, h.2⟩

/-- C2 amended witness: a loop slice facing a PoisonPill (with a user message
still queued behind it) ends Completed delivering nothing, and telling a
Completed processor a new message leaves its state untouched with no
deliveries. -/
theorem c2_termination_within_slice_witness :
    (executeLoop actorA oNever
        (Message.poisonPill :: [Message.user (3 : Nat)]) 0 0 0).state
      = some ProcState.completed ∧
    deliveredOf (executeLoop actorA oNever
        (Message.poisonPill :: [Message.user (3 : Nat)]) 0 0 0).events = [] ∧
    (runOps completedP [Op.tell (Message.user 2)]).1.state = completedP.state ∧
    (runOps completedP [Op.tell (Message.user 2)]).2 = [] := by
  exact c2_termination_within_slice actorA oNever [Message.user 3] 0 0 0
    completedP [Op.tell (Message.user 2)]
    (by
      intro op hop
      cases hop with
      | head => rfl
      | tail _ h => cases h)

/-- C5: an exception raised by actor.receive is confined to its own dispatch:
the resulting processor (state and all counters) and the delivered-payload
sequence are identical to those of the same slice in which receive does not
raise, the offending message is still delivered and followed by a logged
exception, and it still counts into the slice message count. -/
theorem c5_receive_failure_isolated {α : Type} (p : ActorProcessor α)
    (d : Nat → Nat) (r₁ r₂ y : Nat → Bool) (m : α) (rest : List (Message α))
    (h : p.mailbox = Message.user m :: rest) (hr : r₁ 0 = true) :
    (p.execute (mkOracle d r₁ y)).1 = (p.execute (mkOracle d r₂ y)).1 ∧
    deliveredOf (p.execute (mkOracle d r₁ y)).2
      = deliveredOf (p.execute (mkOracle d r₂ y)).2 ∧
    (p.execute (mkOracle d r₁ y)).2.take 2
      = [Event.received m, Event.loggedException] ∧
    1 ≤ (p.execute (mkOracle d r₁ y)).1.slice_msg_count := by
  have hobs := executeLoop_raises_ignored p.actor d r₁ r₂ y p.mailbox 0 0 0
  have he := execute_observed_eq p (mkOracle d r₁ y) (mkOracle d r₂ y) hobs
  refine ⟨he.1, he.2, ?_, ?_⟩
  · by_cases hy : y 0 <;>
      simp [ActorProcessor.execute, h, executeLoop, mkOracle, hr, hy, deliveredOf]
  · show 1 ≤ (executeLoop p.actor (mkOracle d r₁ y) p.mailbox 0 0 0).smc
    rw [h]
    obtain ⟨t, ht⟩ :=
      executeLoop_user_delivered p.actor (mkOracle d r₁ y) m rest 0 0 0
    have hc :=
      (executeLoop_counts p.actor (mkOracle d r₁ y) (Message.user m :: rest) 0 0 0).1
    rw [ht] at hc
    simp at hc
    omega

/-- C5 witness: a two-message slice whose first receive raises delivers both
messages, logs the exception right after the first delivery, ends in the same
processor as the raise-free slice, and counts the offending message. -/
theorem c5_receive_failure_isolated_witness :
    ((mkActorProcessor actorA [Message.user (4 : Nat), Message.user 5]).execute
        (mkOracle (fun _ => 2) (fun _ => true) (fun _ => false))).1
      = ((mkActorProcessor actorA [Message.user (4 : Nat), Message.user 5]).execute
        (mkOracle (fun _ => 2) (fun _ => false) (fun _ => false))).1 ∧
    deliveredOf ((mkActorProcessor actorA [Message.user (4 : Nat), Message.user 5]).execute
        (mkOracle (fun _ => 2) (fun _ => true) (fun _ => false))).2
      = deliveredOf ((mkActorProcessor actorA [Message.user (4 : Nat), Message.user 5]).execute
        (mkOracle (fun _ => 2) (fun _ => false) (fun _ => false))).2 ∧
    ((mkActorProcessor actorA [Message.user (4 : Nat), Message.user 5]).execute
        (mkOracle (fun _ => 2) (fun _ => true) (fun _ => false))).2.take 2
      = [Event.received 4, Event.loggedException] ∧
    1 ≤ ((mkActorProcessor actorA [Message.user (4 : Nat), Message.user 5]).execute
        (mkOracle (fun _ => 2) (fun _ => true) (fun _ => false))).1.slice_msg_count := by
  exact c5_receive_failure_isolated
    (mkActorProcessor actorA [Message.user (4 : Nat), Message.user 5])
    (fun _ => 2) (fun _ => true) (fun _ => false) (fun _ => false)
    4 [Message.user 5] rfl rfl

/-- C6: an execute() slice ends in a definite state: an empty mailbox ends the
slice Idle (delivering nothing); a final state Ready implies messages remain
pending while a final state Idle implies the mailbox is empty; the final state
is always Idle, Ready or Completed; and when interrupt() returns normally
after the first dispatch the loop goes on to dispatch the next message in the
same slice. -/
theorem c6_slice_exit {α : Type} (p : ActorProcessor α) (o : Oracle) :
    (p.mailbox = [] →
      (p.execute o).1.state = some ProcState.idle ∧ (p.execute o).2 = []) ∧
    ((p.execute o).1.state = some ProcState.ready →
      (p.execute o).1.mailbox ≠ []) ∧
    ((p.execute o).1.state = some ProcState.idle →
      (p.execute o).1.mailbox = []) ∧
    ((p.execute o).1.state = some ProcState.idle ∨
      (p.execute o).1.state = some ProcState.ready ∨
      (p.execute o).1.state = some ProcState.completed) ∧
    (∀ (m m' : α) (rest : List (Message α)),
      p.mailbox = Message.user m :: Message.user m' :: rest →
      (o 0).interruptYields = false →
      (deliveredOf (p.execute o).2).take 2 = [m, m']) := by
  have hc := executeLoop_state_cases p.actor o p.mailbox 0 0 0
  refine ⟨?_, ?_, ?_, ?_, ?_⟩
  · intro h
    constructor
    · simp [ActorProcessor.execute, h, executeLoop]
    · simp [ActorProcessor.execute, h, executeLoop]
  · intro hs
    have hs' : (executeLoop p.actor o p.mailbox 0 0 0).state
        = some ProcState.ready := hs
    rcases hc with ⟨h1, h2⟩ | ⟨h1, h2⟩ | h1
    · rw [hs'] at h1; simp at h1
    · exact h2
    · rw [hs'] at h1; simp at h1
  · intro hs
    have hs' : (executeLoop p.actor o p.mailbox 0 0 0).state
        = some ProcState.idle := hs
    rcases hc with ⟨h1, h2⟩ | ⟨h1, h2⟩ | h1
    · exact h2
    · rw [hs'] at h1; simp at h1
    · rw [hs'] at h1; simp at h1
  · rcases hc with ⟨h1, _⟩ | ⟨h1, _⟩ | h1
    · exact Or.inl h1
    · exact Or.inr (Or.inl h1)
    · exact Or.inr (Or.inr h1)
  · intro m m' rest h hy
    have h1 : deliveredOf (p.execute o).2
        = m :: deliveredOf (executeLoop p.actor o (Message.user m' :: rest)
            (0 + 1) (0 + 1) (0 + (o 0).duration)).events := by
      show deliveredOf (executeLoop p.actor o p.mailbox 0 0 0).events = _
      rw [h]
      exact executeLoop_step_no_yield p.actor o m (Message.user m' :: rest) 0 0 0 hy
    obtain ⟨t, ht⟩ := executeLoop_user_delivered p.actor o m' rest (0 + 1) (0 + 1)
        (0 + (o 0).duration)
    rw [h1, ht]
    simp

/-- C6 witness: an empty-mailbox slice ends Idle with no events; a slice cut
short by a yield signal with messages still queued ends with a non-empty
mailbox; and with interrupt() returning normally the first two queued
messages are both dispatched in one slice. -/
theorem c6_slice_exit_witness :
    ((mkActorProcessor actorA ([] : List (Message Nat))).execute oNever).1.state
      = some ProcState.idle ∧
    ((mkActorProcessor actorA ([] : List (Message Nat))).execute oNever).2 = [] ∧
    ((mkActorProcessor actorA
        [Message.user (1 : Nat), Message.user 2, Message.user 3]).execute
          oYield).1.mailbox ≠ [] ∧
    (deliveredOf ((mkActorProcessor actorA
        [Message.user (1 : Nat), Message.user 2, Message.user 3]).execute
          oNever).2).take 2 = [1, 2] := by
  have h1 := c6_slice_exit (mkActorProcessor actorA ([] : List (Message Nat))) oNever
  have h2 := c6_slice_exit
    (mkActorProcessor actorA [Message.user (1 : Nat), Message.user 2, Message.user 3])
    oYield
  have h3 := c6_slice_exit
    (mkActorProcessor actorA [Message.user (1 : Nat), Message.user 2, Message.user 3])
    oNever
  exact ⟨(h1.1 rfl).1, (h1.1 rfl).2, h2.2.1 (by decide),
    h3.2.2.2.2 1 2 [Message.user 3] rfl rfl⟩

/-- C7: slice counters are recomputed from scratch each invocation (the
result of execute() is independent of their prior values); after a slice the
slice message count is exactly the number of messages delivered to receive
and the slice run time is exactly the sum of their measured durations; the
cumulative totals are bumped by exactly the slice counters at the slice
boundary, are monotonically non-decreasing, and after any number of slices
equal the starting totals plus the sum of the per-slice counters. -/
theorem c7_statistics {α : Type} (p : ActorProcessor α) (o : Oracle)
    (os : List Oracle) (x y : Nat) :
    (p.execute o).1.slice_msg_count = (deliveredOf (p.execute o).2).length ∧
    (p.execute o).1.slice_run_time
      = durSum o 0 (deliveredOf (p.execute o).2).length ∧
    ActorProcessor.execute { p with slice_msg_count := x, slice_run_time := y } o
      = p.execute o ∧
    (p.execute o).1.total_msg_count
      = p.total_msg_count + (p.execute o).1.slice_msg_count ∧
    (p.execute o).1.total_run_time
      = p.total_run_time + (p.execute o).1.slice_run_time ∧
    p.total_msg_count ≤ (p.execute o).1.total_msg_count ∧
    p.total_run_time ≤ (p.execute o).1.total_run_time ∧
    (runSlices p os).total_msg_count
      = p.total_msg_count + (sliceMsgCounts p os).sum ∧
    (runSlices p os).total_run_time
      = p.total_run_time + (sliceRunTimes p os).sum := by
  have hc := executeLoop_counts p.actor o p.mailbox 0 0 0
  refine ⟨?_, ?_, rfl, rfl, rfl, ?_, ?_, (runSlices_totals os p).1,
    (runSlices_totals os p).2⟩
  · simpa [ActorProcessor.execute] using hc.1
  · simpa [ActorProcessor.execute] using hc.2
  · exact Nat.le_add_right p.total_msg_count _
  · exact Nat.le_add_right p.total_run_time _

/-- C9: tell() appends at the tail of the mailbox, so a burst of tell calls
starting from an empty mailbox queues the payloads in order, and a slice in
which the scheduler never signals a yield delivers exactly those payloads to
receive in that same insertion order. -/
theorem c9_fifo {α : Type} (p : ActorProcessor α) (ms : List α) (o : Oracle)
    (hmb : p.mailbox = []) (hy : ∀ i, (o i).interruptYields = false) :
    (∀ (q : ActorProcessor α) (msg : Message α),
      (q.tell msg).mailbox = q.mailbox ++ [msg]) ∧
    (tellList p ms).mailbox = ms.map Message.user ∧
    deliveredOf ((tellList p ms).execute o).2 = ms := by
  have hm : (tellList p ms).mailbox = ms.map Message.user := by
    rw [tellList_mailbox, hmb]
    simp
  refine ⟨fun q msg => rfl, hm, ?_⟩
  have hd := executeLoop_no_yield_delivers (tellList p ms).actor o hy ms 0 0 0
  show deliveredOf
      (executeLoop (tellList p ms).actor o (tellList p ms).mailbox 0 0 0).events = ms
  rw [hm]
  exact hd

/-- C9 witness: telling 1, 2, 3 to a fresh processor and running one slice in
a never-yielding environment delivers exactly 1, 2, 3 in order. -/
theorem c9_fifo_witness :
    deliveredOf ((tellList (mkActorProcessor actorA ([] : List (Message Nat)))
        [1, 2, 3]).execute oNever).2 = [1, 2, 3] := by
  have h := c9_fifo (mkActorProcessor actorA ([] : List (Message Nat)))
    [1, 2, 3] oNever rfl (fun i => rfl)
  exact h.2.2

end Freepy
